import Mathlib

/-!
Verification of the markdown-to-HTML conversion pipeline of a static site
generator (source: `src/funcs.py`, `src/textnode.py`).

Python strings are modelled as Lean `String` values, manipulated through
`List Char` so that every operation is structurally recursive and reduces
inside the kernel.  Python functions that can raise model their result as
`Except ConvError`.  The `htmlnode` module and the `TextType` enumeration are
absent from the provided sources (only their tests and callers are present);
they are modelled from the specification, as marked in their doc comments.
-/

set_option autoImplicit false

/-- Python `str.isspace` on the ASCII whitespace characters stripped by
`str.strip()`. -/
def pyIsSpace (c : Char) : Bool :=
  c = ' ' || c = '\t' || c = '\n' || c = '\r' || c = '\x0b' || c = '\x0c'

/-- Strip `pyIsSpace` characters from both ends of a character list
(Python `str.strip()`). -/
def pyStripL (cs : List Char) : List Char :=
  ((cs.dropWhile pyIsSpace).reverse.dropWhile pyIsSpace).reverse

/-- Python `s.strip()`. -/
def pyStrip (s : String) : String :=
  ⟨pyStripL s.data⟩

/-- Python `s.startswith(pre)`. -/
def strStartsWith (s pre : String) : Bool :=
  pre.data.isPrefixOf s.data

/-- Python `s.endswith(suf)`. -/
def strEndsWith (s suf : String) : Bool :=
  suf.data.isSuffixOf s.data

/-- Python `s[n:]`. -/
def strDrop (s : String) (n : Nat) : String :=
  ⟨s.data.drop n⟩

/-- Python `s[a:b]` for nonnegative bounds (empty when `b ≤ a`). -/
def strSlice (s : String) (a b : Nat) : String :=
  ⟨(s.data.drop a).take (b - a)⟩

/-- Python `sep.join(xs)`. -/
def joinSep (sep : String) : List String → String
  | [] => ""
  | [x] => x
  | x :: y :: rest => x ++ sep ++ joinSep sep (y :: rest)

/-- Decimal digits of a natural number (fuel-driven helper). -/
def natReprAux : Nat → Nat → List Char
  | 0, _ => []
  | fuel + 1, n =>
    if n < 10 then [Char.ofNat (48 + n)]
    else natReprAux fuel (n / 10) ++ [Char.ofNat (48 + n % 10)]

/-- Python `str(n)` for a natural number (decimal representation). -/
def natRepr (n : Nat) : List Char :=
  natReprAux (n + 1) n

/-- Python `s.split(sep)` on character lists for a non-empty separator:
split on every non-overlapping occurrence, scanning left to right, keeping
empty parts.  The fuel argument is instantiated with the length of the list,
which always suffices. -/
def pySplitF (sep : List Char) : Nat → List Char → List (List Char)
  | _, [] => [[]]
  | 0, cs => [cs]
  | fuel + 1, c :: rest =>
    if sep ≠ [] ∧ sep.isPrefixOf (c :: rest) then
      [] :: pySplitF sep fuel (rest.drop (sep.length - 1))
    else
      match pySplitF sep fuel rest with
      | [] => [[c]]
      | p :: ps => (c :: p) :: ps

/-- Python `s.split(sep)` (for the non-empty literal separators used by the
source). -/
def pySplit (s sep : String) : List String :=
  (pySplitF sep.data s.data.length s.data).map fun l => ⟨l⟩

/-- Number of non-overlapping occurrences of `sep`, scanning greedily left to
right — the occurrence count used by the specification. -/
def countOccF (sep : List Char) : Nat → List Char → Nat
  | _, [] => 0
  | 0, _ => 0
  | fuel + 1, c :: rest =>
    if sep ≠ [] ∧ sep.isPrefixOf (c :: rest) then
      countOccF sep fuel (rest.drop (sep.length - 1)) + 1
    else
      countOccF sep fuel rest

/-- Number of non-overlapping, greedy left-to-right occurrences of `d` in
`s` as a literal substring. -/
def countOcc (d s : String) : Nat :=
  countOccF d.data s.data.length s.data

/-- Python `s.split(sep, 1)`: `some (before, after)` at the first occurrence
of `sep`, `none` when `sep` does not occur. -/
def splitOnceL (sep : List Char) : List Char → Option (List Char × List Char)
  | [] => none
  | c :: rest =>
    if sep ≠ [] ∧ sep.isPrefixOf (c :: rest) then
      some ([], (c :: rest).drop sep.length)
    else
      match splitOnceL sep rest with
      | some (pre, post) => some (c :: pre, post)
      | none => none

/-- Index of the first occurrence of `sub` (Python `s.index(sub)` /
`s.find(sub)`), `none` when absent. -/
def indexOfL (sub : List Char) : List Char → Option Nat
  | [] => if sub.isPrefixOf ([] : List Char) then some 0 else none
  | c :: rest =>
    if sub.isPrefixOf (c :: rest) then some 0
    else (indexOfL sub rest).map (· + 1)

/-- Index of the last occurrence of `sub` (Python `s.rfind(sub)`), `none`
when absent. -/
def rfindL (sub : List Char) : List Char → Option Nat
  | [] => if sub.isPrefixOf ([] : List Char) then some 0 else none
  | c :: rest =>
    match rfindL sub rest with
    | some i => some (i + 1)
    | none => if sub.isPrefixOf (c :: rest) then some 0 else none

/-- Python `s.index(sub)` as an option. -/
def strIndexOf (s sub : String) : Option Nat :=
  indexOfL sub.data s.data

/-- Python `s.rfind(sub)` as an option. -/
def strRFind (s sub : String) : Option Nat :=
  rfindL sub.data s.data

/-- Modelled from the spec: the `TextType` enumeration imported by
`funcs.py` from the `textnode` module is missing from the provided sources
(the file defines an unrelated `TextNodeType`); its members are exactly the
six used by `funcs.py` and spec §3 (PLAIN, BOLD, ITALIC, CODE, LINK,
IMAGE). -/
inductive TextType where
  | text
  | bold
  | italic
  | code
  | link
  | image
  deriving DecidableEq, Repr

/-- `TextNode` from `textnode.py`: a text span, its type and an optional
URL (defaulting to `None`). -/
structure TextNode where
  text : String
  node_type : TextType
  URL : Option String := none
  deriving DecidableEq, Repr

/-- The errors the pipeline can raise.  `malformedInline d` stands for the
`Exception` raised by `split_nodes_delimiter` for an unmatched delimiter `d`;
`substringNotFound` for the `ValueError` of `str.index`; `noHeading` for the
`Exception` of `extract_title`; the remaining constructors for the
`ValueError`s of the HTML node model and the block dispatcher. -/
inductive ConvError where
  | malformedInline (delimiter : String)
  | substringNotFound
  | noHeading
  | valueErrorCodeFence
  | missingLeafValue
  | parentNoTag
  | parentNoChildren
  | unsupportedTextType
  | unsupportedBlockType
  deriving DecidableEq, Repr

/-- The loop body of `split_nodes_delimiter`: parts at even index stay TEXT,
parts at odd index get the given type, empty parts are dropped. -/
def partsToNodes (t : TextType) : Nat → List String → List TextNode
  | _, [] => []
  | i, p :: ps =>
    (if p = "" then [] else
      [{ text := p, node_type := if i % 2 = 0 then .text else t }]) ++
    partsToNodes t (i + 1) ps

/-- `split_nodes_delimiter` from `funcs.py`: split every TEXT node on the
delimiter, failing when a split yields an even number of parts; non-TEXT
nodes pass through unchanged. -/
def splitNodesDelimiter : List TextNode → String → TextType →
    Except ConvError (List TextNode)
  | [], _, _ => .ok []
  | n :: ns, d, t =>
    if n.node_type = .text then
      let parts := pySplit n.text d
      if parts.length % 2 = 0 then .error (.malformedInline d)
      else
        match splitNodesDelimiter ns d t with
        | .error e => .error e
        | .ok tail => .ok (partsToNodes t 0 parts ++ tail)
    else
      match splitNodesDelimiter ns d t with
      | .error e => .error e
      | .ok tail => .ok (n :: tail)

/-- Attempt to match the image pattern `![alt](url)` of
`extract_markdown_images` at the head of the list, where `alt` excludes the
characters `[`, `]` and `url` excludes `(`, `)` (regex
`!\[([^\[\]]*)\]\(([^\(\)]*)\)`).  Returns the two captures and the suffix
after the match. -/
def matchImageAt (cs : List Char) : Option (String × String × List Char) :=
  match cs with
  | c1 :: c2 :: rest =>
    if c1 = '!' ∧ c2 = '[' then
      let alt := rest.takeWhile fun c => !(c = '[' || c = ']')
      match rest.dropWhile fun c => !(c = '[' || c = ']') with
      | d1 :: d2 :: rest2 =>
        if d1 = ']' ∧ d2 = '(' then
          let url := rest2.takeWhile fun c => !(c = '(' || c = ')')
          match rest2.dropWhile fun c => !(c = '(' || c = ')') with
          | e1 :: rest4 =>
            if e1 = ')' then some (⟨alt⟩, ⟨url⟩, rest4) else none
          | [] => none
        else none
      | _ => none
    else none
  | _ => none

/-- The left-to-right, non-overlapping scan of `re.findall` for the image
pattern: try a match at every position, resuming after the end of each
match.  Fuel is instantiated with the length of the list, which always
suffices because every match consumes at least one character. -/
def extractImagesF : Nat → List Char → List (String × String)
  | 0, _ => []
  | _, [] => []
  | fuel + 1, c :: rest =>
    match matchImageAt (c :: rest) with
    | some (alt, url, rest4) => (alt, url) :: extractImagesF fuel rest4
    | none => extractImagesF fuel rest

/-- `extract_markdown_images` from `funcs.py`. -/
def extractMarkdownImages (text : String) : List (String × String) :=
  extractImagesF text.data.length text.data

/-- Attempt to match the link pattern `[anchor](url)` of
`extract_markdown_links` at the head of the list (regex without the
lookbehind, `\[([^\[\]]*)\]\(([^\(\)]*)\)`). -/
def matchLinkAt (cs : List Char) : Option (String × String × List Char) :=
  match cs with
  | c1 :: rest =>
    if c1 = '[' then
      let anchor := rest.takeWhile fun c => !(c = '[' || c = ']')
      match rest.dropWhile fun c => !(c = '[' || c = ']') with
      | d1 :: d2 :: rest2 =>
        if d1 = ']' ∧ d2 = '(' then
          let url := rest2.takeWhile fun c => !(c = '(' || c = ')')
          match rest2.dropWhile fun c => !(c = '(' || c = ')') with
          | e1 :: rest4 =>
            if e1 = ')' then some (⟨anchor⟩, ⟨url⟩, rest4) else none
          | [] => none
        else none
      | _ => none
    else none
  | [] => none

/-- The `re.findall` scan for the link pattern with the negative lookbehind
`(?<!!)`: a match at a position is admitted only when the character directly
before that position in the scanned string (tracked as `prev`) is not `!`.
After a match the scan resumes after its final `)`. -/
def extractLinksF : Nat → Option Char → List Char → List (String × String)
  | 0, _, _ => []
  | _, _, [] => []
  | fuel + 1, prev, c :: rest =>
    if prev ≠ some '!' then
      match matchLinkAt (c :: rest) with
      | some (anchor, url, rest4) =>
        (anchor, url) :: extractLinksF fuel (some ')') rest4
      | none => extractLinksF fuel (some c) rest
    else extractLinksF fuel (some c) rest

/-- `extract_markdown_links` from `funcs.py`. -/
def extractMarkdownLinks (text : String) : List (String × String) :=
  extractLinksF text.data.length none text.data

/-- The inner loop of `split_nodes_image`: successively split the remaining
text at the reconstructed literal `![alt](url)` of each extracted image,
emitting the preceding text (when non-empty) and an IMAGE node, and finally
the trailing text (when non-empty). -/
def imageLoop : String → List (String × String) → List TextNode
  | remaining, [] =>
    if remaining = "" then [] else [{ text := remaining, node_type := .text }]
  | remaining, (alt, url) :: rest =>
    let imageMarkdown := "![" ++ alt ++ "](" ++ url ++ ")"
    match splitOnceL imageMarkdown.data remaining.data with
    | some (pre, post) =>
      (if (⟨pre⟩ : String) = "" then [] else
        [{ text := (⟨pre⟩ : String), node_type := .text }]) ++
      ({ text := alt, node_type := .image, URL := some url } ::
        imageLoop ⟨post⟩ rest)
    | none =>
      (if remaining = "" then [] else
        [{ text := remaining, node_type := .text }]) ++
      ({ text := alt, node_type := .image, URL := some url } ::
        imageLoop "" rest)

/-- `split_nodes_image` from `funcs.py` applied to one node. -/
def splitImageNode (n : TextNode) : List TextNode :=
  if n.node_type ≠ .text then [n]
  else
    let images := extractMarkdownImages n.text
    if images = [] then [n] else imageLoop n.text images

/-- `split_nodes_image` from `funcs.py`. -/
def splitNodesImage (ns : List TextNode) : List TextNode :=
  ns.flatMap splitImageNode

/-- The inner loop of `split_nodes_link`, symmetric to `imageLoop` with the
literal `[anchor](url)`. -/
def linkLoop : String → List (String × String) → List TextNode
  | remaining, [] =>
    if remaining = "" then [] else [{ text := remaining, node_type := .text }]
  | remaining, (anchor, url) :: rest =>
    let linkMarkdown := "[" ++ anchor ++ "](" ++ url ++ ")"
    match splitOnceL linkMarkdown.data remaining.data with
    | some (pre, post) =>
      (if (⟨pre⟩ : String) = "" then [] else
        [{ text := (⟨pre⟩ : String), node_type := .text }]) ++
      ({ text := anchor, node_type := .link, URL := some url } ::
        linkLoop ⟨post⟩ rest)
    | none =>
      (if remaining = "" then [] else
        [{ text := remaining, node_type := .text }]) ++
      ({ text := anchor, node_type := .link, URL := some url } ::
        linkLoop "" rest)

/-- `split_nodes_link` from `funcs.py` applied to one node. -/
def splitLinkNode (n : TextNode) : List TextNode :=
  if n.node_type ≠ .text then [n]
  else
    let links := extractMarkdownLinks n.text
    if links = [] then [n] else linkLoop n.text links

/-- `split_nodes_link` from `funcs.py`. -/
def splitNodesLink (ns : List TextNode) : List TextNode :=
  ns.flatMap splitLinkNode

/-- `text_to_textnodes` from `funcs.py`: the four delimiter passes in order
(`**` BOLD, `*` ITALIC, `_` ITALIC, `` ` `` CODE), then image and link
extraction. -/
def textToTextnodes (text : String) : Except ConvError (List TextNode) :=
  match splitNodesDelimiter [{ text := text, node_type := .text }] "**" .bold with
  | .error e => .error e
  | .ok ns1 =>
    match splitNodesDelimiter ns1 "*" .italic with
    | .error e => .error e
    | .ok ns2 =>
      match splitNodesDelimiter ns2 "_" .italic with
      | .error e => .error e
      | .ok ns3 =>
        match splitNodesDelimiter ns3 "`" .code with
        | .error e => .error e
        | .ok ns4 => .ok (splitNodesLink (splitNodesImage ns4))

/-- Modelled from the spec: the `htmlnode` module is missing from the
provided sources (only `test_htmlnode.py` and its callers are present).
Per spec §3 a node is either a Leaf (optional tag, text value, attributes)
or a Parent (tag, ordered children, attributes); attributes are an ordered
association list.  The constructors store their arguments unchecked, as the
tests show (`ParentNode("div", [])` constructs and only `to_html` fails). -/
inductive HtmlNode where
  | leaf (tag : Option String) (value : Option String)
      (props : List (String × String))
  | parent (tag : Option String) (children : List HtmlNode)
      (props : List (String × String))

/-- Modelled from the spec: attribute rendering of §4.5 — for each attribute
in insertion order emit a space-prefixed `key="value"` pair, no escaping. -/
def propsToHtml (props : List (String × String)) : String :=
  props.foldl (fun acc kv => acc ++ " " ++ kv.1 ++ "=\x22" ++ kv.2 ++ "\x22") ""

mutual
/-- Modelled from the spec: `to_html` serialization of §4.5.  A leaf without
a value fails; a leaf without a tag renders its raw text; a parent without a
tag, or with an empty children list, fails; otherwise the children render in
order between the opening and closing tags. -/
def toHtml : HtmlNode → Except ConvError String
  | .leaf tag value props =>
    match value with
    | none => .error .missingLeafValue
    | some v =>
      match tag with
      | none => .ok v
      | some t => .ok ("<" ++ t ++ propsToHtml props ++ ">" ++ v ++ "</" ++ t ++ ">")
  | .parent tag children props =>
    match tag with
    | none => .error .parentNoTag
    | some t =>
      if children.isEmpty then .error .parentNoChildren
      else
        match toHtmlList children with
        | .error e => .error e
        | .ok rendered =>
          .ok ("<" ++ t ++ propsToHtml props ++ ">" ++ joinSep "" rendered ++
               "</" ++ t ++ ">")

/-- Serialize a list of children in order, propagating the first error. -/
def toHtmlList : List HtmlNode → Except ConvError (List String)
  | [] => .ok []
  | n :: ns =>
    match toHtml n with
    | .error e => .error e
    | .ok s =>
      match toHtmlList ns with
      | .error e => .error e
      | .ok rest => .ok (s :: rest)
end

/-- `text_node_to_html_node` from `funcs.py`: per-type leaf construction
(TEXT untagged, BOLD `b`, ITALIC `i`, CODE `code`, LINK `a` with `href`,
IMAGE `img` with empty value and `src`/`alt`).  The URL, absent for the
first four types, is rendered the way a Python f-string renders `None`
when it reaches the attribute dictionary of a LINK or IMAGE node. -/
def textNodeToHtmlNode (n : TextNode) : HtmlNode :=
  match n.node_type with
  | .text => .leaf none (some n.text) []
  | .bold => .leaf (some "b") (some n.text) []
  | .italic => .leaf (some "i") (some n.text) []
  | .code => .leaf (some "code") (some n.text) []
  | .link => .leaf (some "a") (some n.text) [("href", n.URL.getD "None")]
  | .image => .leaf (some "img") (some "")
      [("src", n.URL.getD "None"), ("alt", n.text)]

/-- The `BlockType` enumeration from `funcs.py`. -/
inductive BlockType where
  | paragraph
  | heading
  | code
  | quote
  | unordered_list
  | ordered_list
  deriving DecidableEq, Repr

/-- The counting loop of `block_to_block_type` and `heading_to_html_node`:
length of the run of `#` characters at the head. -/
def countLeadingHashes : List Char → Nat
  | [] => 0
  | c :: rest => if c = '#' then countLeadingHashes rest + 1 else 0

/-- The ordered-list loop of `block_to_block_type`: line `i` (0-indexed,
starting from the given counter) must start with the literal `"{i+1}. "`. -/
def orderedCheck : Nat → List String → Bool
  | _, [] => true
  | i, l :: ls =>
    strStartsWith l ⟨natRepr (i + 1) ++ ['.', ' ']⟩ && orderedCheck (i + 1) ls

/-- `block_to_block_type` from `funcs.py`: heading (run of 1..6 `#` followed
by a space character), else code (starts and ends with the fence), else
quote (every line starts with `>`), else unordered list (every line starts
with `"- "`), else ordered list (lines numbered from 1 in steps of 1), else
paragraph. -/
def blockToBlockType (block : String) : BlockType :=
  if strStartsWith block "#" = true ∧ 1 ≤ countLeadingHashes block.data ∧
      countLeadingHashes block.data ≤ 6 ∧
      countLeadingHashes block.data < block.data.length ∧
      block.data.get? (countLeadingHashes block.data) = some ' ' then .heading
  else if strStartsWith block "```" = true ∧ strEndsWith block "```" = true then
    .code
  else if (pySplit block "\n").all (fun l => strStartsWith l ">") then .quote
  else if (pySplit block "\n").all (fun l => strStartsWith l "- ") then
    .unordered_list
  else if orderedCheck 0 (pySplit block "\n") = true ∧
      0 < (pySplit block "\n").length then .ordered_list
  else .paragraph

/-- `markdown_to_blocks` from `funcs.py`: split on the blank-line separator,
strip every piece, drop the pieces that are empty after stripping. -/
def markdownToBlocks (markdown : String) : List String :=
  ((pySplit markdown "\n\n").map pyStrip).filter fun b => !(b = "")

/-- `text_to_children` from `funcs.py`: tokenize and convert every fragment
to a leaf node.  The per-fragment conversion is total because the type
enumeration is closed. -/
def textToChildren (text : String) : Except ConvError (List HtmlNode) :=
  match textToTextnodes text with
  | .error e => .error e
  | .ok ns => .ok (ns.map textNodeToHtmlNode)

/-- `paragraph_to_html_node` from `funcs.py`: join the lines with single
spaces, tokenize, wrap in a `p` parent. -/
def paragraphToHtmlNode (block : String) : Except ConvError HtmlNode :=
  match textToChildren (joinSep " " (pySplit block "\n")) with
  | .error e => .error e
  | .ok children => .ok (.parent (some "p") children [])

/-- `heading_to_html_node` from `funcs.py`: count the leading `#` run, drop
it and one further character, tokenize, wrap in an `h{level}` parent. -/
def headingToHtmlNode (block : String) : Except ConvError HtmlNode :=
  let level := countLeadingHashes block.data
  match textToChildren (strDrop block (level + 1)) with
  | .error e => .error e
  | .ok children => .ok (.parent (some ("h" ++ (⟨natRepr level⟩ : String))) children [])

/-- `code_to_html_node` from `funcs.py`: require the opening fence, locate
the first newline (`str.index`, raising when absent) and the last fence
(`str.rfind`, which cannot miss here because the block starts with the
fence), slice the interior out and wrap it, untokenized, as a `code` leaf
inside a `pre` parent. -/
def codeToHtmlNode (block : String) : Except ConvError HtmlNode :=
  if strStartsWith block "```" = true then
    match strIndexOf block "\n" with
    | none => .error .substringNotFound
    | some firstNewline =>
      let lastBackticks := (strRFind block "```").getD 0
      let codeText := strSlice block (firstNewline + 1) lastBackticks
      .ok (.parent (some "pre") [.leaf (some "code") (some codeText) []] [])
  else .error .valueErrorCodeFence

/-- `quote_to_html_node` from `funcs.py`: strip a leading `"> "` or `">"`
from each line, silently dropping lines with neither, rejoin with newlines,
tokenize, wrap in a `blockquote` parent. -/
def quoteToHtmlNode (block : String) : Except ConvError HtmlNode :=
  let cleaned := (pySplit block "\n").filterMap fun l =>
    if strStartsWith l "> " then some (strDrop l 2)
    else if strStartsWith l ">" then some (strDrop l 1)
    else none
  match textToChildren (joinSep "\n" cleaned) with
  | .error e => .error e
  | .ok children => .ok (.parent (some "blockquote") children [])

/-- The loop of `unordered_list_to_html_node`: drop the two-character prefix
of each line, tokenize it, wrap in an `li` parent. -/
def unorderedItems : List String → Except ConvError (List HtmlNode)
  | [] => .ok []
  | l :: ls =>
    match textToChildren (strDrop l 2) with
    | .error e => .error e
    | .ok cs =>
      match unorderedItems ls with
      | .error e => .error e
      | .ok rest => .ok (.parent (some "li") cs [] :: rest)

/-- `unordered_list_to_html_node` from `funcs.py`. -/
def unorderedListToHtmlNode (block : String) : Except ConvError HtmlNode :=
  match unorderedItems (pySplit block "\n") with
  | .error e => .error e
  | .ok items => .ok (.parent (some "ul") items [])

/-- The loop of `ordered_list_to_html_node`: locate the first `". "` in each
line (`str.index`, raising when absent), drop through it, tokenize, wrap in
an `li` parent. -/
def orderedItems : List String → Except ConvError (List HtmlNode)
  | [] => .ok []
  | l :: ls =>
    match strIndexOf l ". " with
    | none => .error .substringNotFound
    | some idx =>
      match textToChildren (strDrop l (idx + 2)) with
      | .error e => .error e
      | .ok cs =>
        match orderedItems ls with
        | .error e => .error e
        | .ok rest => .ok (.parent (some "li") cs [] :: rest)

/-- `ordered_list_to_html_node` from `funcs.py`. -/
def orderedListToHtmlNode (block : String) : Except ConvError HtmlNode :=
  match orderedItems (pySplit block "\n") with
  | .error e => .error e
  | .ok items => .ok (.parent (some "ol") items [])

/-- `block_to_html_node` from `funcs.py`: dispatch on the classified type.
The Python `else` branch raising `ValueError` is unreachable because the
enumeration is closed. -/
def blockToHtmlNode (block : String) : Except ConvError HtmlNode :=
  match blockToBlockType block with
  | .paragraph => paragraphToHtmlNode block
  | .heading => headingToHtmlNode block
  | .code => codeToHtmlNode block
  | .quote => quoteToHtmlNode block
  | .unordered_list => unorderedListToHtmlNode block
  | .ordered_list => orderedListToHtmlNode block

/-- The block loop of `markdown_to_html_node`, propagating the first
error. -/
def blocksToChildren : List String → Except ConvError (List HtmlNode)
  | [] => .ok []
  | b :: bs =>
    match blockToHtmlNode b with
    | .error e => .error e
    | .ok n =>
      match blocksToChildren bs with
      | .error e => .error e
      | .ok rest => .ok (n :: rest)

/-- `markdown_to_html_node` from `funcs.py`: split into blocks, convert each
block, wrap the children in a `div` parent (constructed unchecked, exactly
as the Python constructor does). -/
def markdownToHtmlNode (markdown : String) : Except ConvError HtmlNode :=
  match blocksToChildren (markdownToBlocks markdown) with
  | .error e => .error e
  | .ok children => .ok (.parent (some "div") children [])

/-- The line loop of `extract_title`. -/
def extractTitleLines : List String → Except ConvError String
  | [] => .error .noHeading
  | l :: ls =>
    let stripped := pyStrip l
    if strStartsWith stripped "# " = true ∧ strStartsWith stripped "## " = false
    then .ok (pyStrip (strDrop stripped 2))
    else extractTitleLines ls

/-- `extract_title` from `funcs.py`: return the stripped remainder after
`"# "` of the first line whose stripped form starts with `"# "` but not
`"## "`; raise when no line qualifies. -/
def extractTitle (markdown : String) : Except ConvError String :=
  extractTitleLines (pySplit markdown "\n")

/-- Spec §4.2 HEADING: the block starts with 1 to 6 `#` characters
immediately followed by a space character. -/
def specHeading (b : String) : Prop :=
  ∃ k, 1 ≤ k ∧ k ≤ 6 ∧ ∃ t, b.data = List.replicate k '#' ++ ' ' :: t

/-- Spec §4.2 CODE: the block starts and ends with the three-character
fence. -/
def specCode (b : String) : Prop :=
  strStartsWith b "```" = true ∧ strEndsWith b "```" = true

/-- Spec §4.2 QUOTE: every line starts with `>`. -/
def specQuote (b : String) : Prop :=
  ∀ l ∈ pySplit b "\n", strStartsWith l ">" = true

/-- Spec §4.2 UNORDERED_LIST: every line starts with the literal `"- "`. -/
def specUnordered (b : String) : Prop :=
  ∀ l ∈ pySplit b "\n", strStartsWith l "- " = true

/-- Spec §4.2 ORDERED_LIST: line `i` (0-indexed) starts with the literal
`"{i+1}. "` for every line. -/
def specOrdered (b : String) : Prop :=
  ∀ i (h : i < (pySplit b "\n").length),
    strStartsWith ((pySplit b "\n").get ⟨i, h⟩) ⟨natRepr (i + 1) ++ ['.', ' ']⟩ = true

/-- Spec §8: a string with no markdown special characters — none of the
delimiter characters `*`, `_`, `` ` `` and none of the image and link
characters `!`, `[`, `]`, `(`, `)`. -/
def noMarkdownSpecials (s : String) : Prop :=
  ∀ c ∈ s.data,
    ¬(c = '*' ∨ c = '_' ∨ c = Char.ofNat 96 ∨ c = '!' ∨ c = '[' ∨ c = ']' ∨
      c = '(' ∨ c = ')')

/-- Spec §6 title extraction, written as stated there: locate the first line
whose trimmed form starts with exactly `"# "` and not `"## "`, and return
the trimmed remainder; otherwise fail. -/
def specExtractTitle (md : String) : Except ConvError String :=
  match (pySplit md "\n").find? (fun l =>
      strStartsWith (pyStrip l) "# " && !(strStartsWith (pyStrip l) "## ")) with
  | some l => .ok (pyStrip (strDrop (pyStrip l) 2))
  | none => .error .noHeading

theorem pySplitF_ne_nil (sep : List Char) (fuel : Nat) (cs : List Char) :
    pySplitF sep fuel cs ≠ [] := by
  cases fuel with
  | zero => cases cs <;> simp [pySplitF]
  | succ fuel =>
    cases cs with
    | nil => simp [pySplitF]
    | cons c rest =>
      simp only [pySplitF]
      split
      · simp
      · rcases h : pySplitF sep fuel rest with _ | ⟨p, ps⟩ <;> simp

theorem pySplit_ne_nil (s sep : String) : pySplit s sep ≠ [] := by
  simp [pySplit, pySplitF_ne_nil]

theorem pySplitF_length (sep : List Char) :
    ∀ (fuel : Nat) (cs : List Char), cs.length ≤ fuel →
      (pySplitF sep fuel cs).length = countOccF sep fuel cs + 1 := by
  intro fuel
  induction fuel with
  | zero =>
    intro cs hcs
    have hnil : cs = [] := List.length_eq_zero.mp (Nat.le_zero.mp hcs)
    subst hnil
    simp [pySplitF, countOccF]
  | succ fuel ih =>
    intro cs hcs
    cases cs with
    | nil => simp [pySplitF, countOccF]
    | cons c rest =>
      simp only [pySplitF, countOccF]
      split
      · have hlen : (rest.drop (sep.length - 1)).length ≤ fuel := by
          have := List.length_drop (sep.length - 1) rest
          simp only [List.length_cons] at hcs
          omega
        simp [ih _ hlen]
      · have hlen : rest.length ≤ fuel := by
          simp only [List.length_cons] at hcs; omega
        rcases h : pySplitF sep fuel rest with _ | ⟨p, ps⟩
        · exact absurd h (pySplitF_ne_nil sep fuel rest)
        · have := ih rest hlen
          rw [h] at this
          simpa using this

theorem pySplit_length (s d : String) :
    (pySplit s d).length = countOcc d s + 1 := by
  simp only [pySplit, countOcc, List.length_map]
  exact pySplitF_length d.data s.data.length s.data le_rfl

theorem pySplitF_single (h : Char) (tl : List Char) :
    ∀ (fuel : Nat) (cs : List Char), cs.length ≤ fuel → h ∉ cs →
      pySplitF (h :: tl) fuel cs = [cs] := by
  intro fuel
  induction fuel with
  | zero =>
    intro cs hcs _
    have hnil : cs = [] := List.length_eq_zero.mp (Nat.le_zero.mp hcs)
    subst hnil
    simp [pySplitF]
  | succ fuel ih =>
    intro cs hcs hmem
    cases cs with
    | nil => simp [pySplitF]
    | cons c rest =>
      have hne : ¬(h = c) := fun he => hmem (he ▸ List.mem_cons_self c rest)
      have hbeq : (h == c) = false := beq_eq_false_iff_ne.mpr hne
      have hpre : (h :: tl).isPrefixOf (c :: rest) = false := by
        simp [List.isPrefixOf, hbeq]
      have hlen : rest.length ≤ fuel := by
        simp only [List.length_cons] at hcs; omega
      have hmem2 : h ∉ rest := fun hm => hmem (List.mem_cons_of_mem c hm)
      simp only [pySplitF]
      rw [if_neg (by simp [hpre]), ih rest hlen hmem2]

theorem pySplit_single (s d : String) (h : Char) (tl : List Char)
    (hd : d.data = h :: tl) (hmem : h ∉ s.data) : pySplit s d = [s] := by
  simp only [pySplit, hd]
  rw [pySplitF_single h tl s.data.length s.data le_rfl hmem]
  simp

theorem matchImageAt_none {c : Char} (rest : List Char) (hc : c ≠ '!') :
    matchImageAt (c :: rest) = none := by
  cases rest <;> simp [matchImageAt, hc]

theorem extractImagesF_nil :
    ∀ (fuel : Nat) (cs : List Char), '!' ∉ cs → extractImagesF fuel cs = [] := by
  intro fuel
  induction fuel with
  | zero => intro cs _; cases cs <;> simp [extractImagesF]
  | succ fuel ih =>
    intro cs hmem
    cases cs with
    | nil => simp [extractImagesF]
    | cons c rest =>
      have hc : c ≠ '!' := fun he => hmem (he ▸ List.mem_cons_self c rest)
      have hrest : '!' ∉ rest := fun hm => hmem (List.mem_cons_of_mem c hm)
      simp [extractImagesF, matchImageAt_none rest hc, ih rest hrest]

theorem matchLinkAt_none {c : Char} (rest : List Char) (hc : c ≠ '[') :
    matchLinkAt (c :: rest) = none := by
  simp [matchLinkAt, hc]

theorem extractLinksF_nil :
    ∀ (fuel : Nat) (prev : Option Char) (cs : List Char), '[' ∉ cs →
      extractLinksF fuel prev cs = [] := by
  intro fuel
  induction fuel with
  | zero => intro prev cs _; cases cs <;> simp [extractLinksF]
  | succ fuel ih =>
    intro prev cs hmem
    cases cs with
    | nil => simp [extractLinksF]
    | cons c rest =>
      have hc : c ≠ '[' := fun he => hmem (he ▸ List.mem_cons_self c rest)
      have hrest : '[' ∉ rest := fun hm => hmem (List.mem_cons_of_mem c hm)
      simp only [extractLinksF]
      split
      · simp [matchLinkAt_none rest hc, ih (some c) rest hrest]
      · exact ih (some c) rest hrest

theorem splitNodesDelimiter_fails_iff (d : String) (t : TextType) :
    ∀ ns : List TextNode,
      (splitNodesDelimiter ns d t).isOk = false ↔
        ∃ n ∈ ns, n.node_type = .text ∧ countOcc d n.text % 2 = 1 := by
  intro ns
  induction ns with
  | nil => simp [splitNodesDelimiter, Except.isOk, Except.toBool]
  | cons n ns ih =>
    by_cases h : n.node_type = .text
    · by_cases hp : (pySplit n.text d).length % 2 = 0
      · have hodd : countOcc d n.text % 2 = 1 := by
          have := pySplit_length n.text d
          omega
        simp only [splitNodesDelimiter, if_pos h, if_pos hp]
        simp only [Except.isOk, Except.toBool, true_iff]
        exact ⟨n, List.mem_cons_self n ns, h, hodd⟩
      · have heven : ¬(countOcc d n.text % 2 = 1) := by
          have := pySplit_length n.text d
          omega
        simp only [splitNodesDelimiter, if_pos h, if_neg hp]
        rcases hr : splitNodesDelimiter ns d t with e | tail
        · simp only [Except.isOk, Except.toBool, true_iff]
          have hex : ∃ m ∈ ns, m.node_type = .text ∧ countOcc d m.text % 2 = 1 := by
            rw [← ih, hr]; rfl
          obtain ⟨m, hm, hmt, hmo⟩ := hex
          exact ⟨m, List.mem_cons_of_mem n hm, hmt, hmo⟩
        · simp only [Except.isOk, Except.toBool, Bool.true_eq_false, false_iff]
          rintro ⟨m, hm, hmt, hmo⟩
          rcases List.mem_cons.mp hm with rfl | hm2
          · exact heven hmo
          · have hko : (splitNodesDelimiter ns d t).isOk = false :=
              ih.mpr ⟨m, hm2, hmt, hmo⟩
            rw [hr] at hko
            exact absurd hko (by simp [Except.isOk, Except.toBool])
    · simp only [splitNodesDelimiter, if_neg h]
      rcases hr : splitNodesDelimiter ns d t with e | tail
      · simp only [Except.isOk, Except.toBool, true_iff]
        have hex : ∃ m ∈ ns, m.node_type = .text ∧ countOcc d m.text % 2 = 1 := by
          rw [← ih, hr]; rfl
        obtain ⟨m, hm, hmt, hmo⟩ := hex
        exact ⟨m, List.mem_cons_of_mem n hm, hmt, hmo⟩
      · simp only [Except.isOk, Except.toBool, Bool.true_eq_false, false_iff]
        rintro ⟨m, hm, hmt, hmo⟩
        rcases List.mem_cons.mp hm with rfl | hm2
        · exact h hmt
        · have hko : (splitNodesDelimiter ns d t).isOk = false :=
            ih.mpr ⟨m, hm2, hmt, hmo⟩
          rw [hr] at hko
          exact absurd hko (by simp [Except.isOk, Except.toBool])

theorem countLeadingHashes_decomp :
    ∀ cs : List Char,
      cs = List.replicate (countLeadingHashes cs) '#' ++
        cs.drop (countLeadingHashes cs) := by
  intro cs
  induction cs with
  | nil => simp [countLeadingHashes]
  | cons c rest ih =>
    by_cases hc : c = '#'
    · subst hc
      simp only [countLeadingHashes, if_pos rfl, List.replicate_succ,
        List.drop_succ_cons, List.cons_append]
      exact congrArg _ ih
    · simp [countLeadingHashes, hc]

theorem countLeadingHashes_replicate (k : Nat) (t : List Char) :
    countLeadingHashes (List.replicate k '#' ++ ' ' :: t) = k := by
  induction k with
  | zero => simp [countLeadingHashes]
  | succ k ih => simp [List.replicate_succ, countLeadingHashes, ih]

theorem headingCond_iff (b : String) :
    (strStartsWith b "#" = true ∧ 1 ≤ countLeadingHashes b.data ∧
      countLeadingHashes b.data ≤ 6 ∧
      countLeadingHashes b.data < b.data.length ∧
      b.data.get? (countLeadingHashes b.data) = some ' ') ↔ specHeading b := by
  constructor
  · rintro ⟨-, h1, h6, hlt, hsp⟩
    set c := countLeadingHashes b.data with hc
    have hdec := countLeadingHashes_decomp b.data
    rw [← hc] at hdec
    have hlen : (List.replicate c '#').length = c := List.length_replicate c '#'
    have hget : (b.data.drop c).get? 0 = some ' ' := by
      have hr := @List.get?_append_right Char (List.replicate c '#')
        (b.data.drop c) c (le_of_eq hlen)
      rw [← hdec, hlen, Nat.sub_self] at hr
      exact hr.symm.trans hsp
    rcases hdrop : b.data.drop c with _ | ⟨x, t⟩
    · rw [hdrop] at hget; simp at hget
    · rw [hdrop] at hget
      simp only [List.get?] at hget
      obtain rfl : x = ' ' := by injection hget
      exact ⟨c, h1, h6, t, by rw [hdec, hdrop]⟩
  · rintro ⟨k, h1, h6, t, hdat⟩
    have hcount : countLeadingHashes b.data = k := by
      rw [hdat]; exact countLeadingHashes_replicate k t
    refine ⟨?_, by omega, by omega, ?_, ?_⟩
    · have hhead : b.data = '#' :: (List.replicate (k - 1) '#' ++ ' ' :: t) := by
        rw [hdat]
        rcases k with _ | k
        · omega
        · simp [List.replicate_succ]
      rw [strStartsWith, hhead]
      simp [List.isPrefixOf]
    · rw [hcount, hdat]
      simp only [List.length_append, List.length_replicate, List.length_cons]
      omega
    · rw [hcount, hdat]
      have hr := @List.get?_append_right Char (List.replicate k '#')
        (' ' :: t) k (le_of_eq (List.length_replicate k '#'))
      rw [hr]
      simp

theorem orderedCheck_iff :
    ∀ (ls : List String) (k : Nat),
      orderedCheck k ls = true ↔
        ∀ i (h : i < ls.length),
          strStartsWith (ls.get ⟨i, h⟩) ⟨natRepr (k + i + 1) ++ ['.', ' ']⟩ = true := by
  intro ls
  induction ls with
  | nil => intro k; simp [orderedCheck]
  | cons l ls ih =>
    intro k
    simp only [orderedCheck, Bool.and_eq_true]
    constructor
    · rintro ⟨hl, hrest⟩ i hi
      cases i with
      | zero => simpa using hl
      | succ i =>
        have hi2 : i < ls.length := by simpa [Nat.succ_lt_succ_iff] using hi
        have := (ih (k + 1)).mp hrest i hi2
        have harith : k + 1 + i + 1 = k + (i + 1) + 1 := by omega
        rw [harith] at this
        simpa using this
    · intro h
      constructor
      · simpa using h 0 (by simp)
      · refine (ih (k + 1)).mpr fun i hi => ?_
        have hi2 : i + 1 < (l :: ls).length := by simpa [Nat.succ_lt_succ_iff] using hi
        have := h (i + 1) hi2
        have harith : k + (i + 1) + 1 = k + 1 + i + 1 := by omega
        rw [harith] at this
        simpa using this

theorem extractTitleLines_eq (ls : List String) :
    extractTitleLines ls =
      match ls.find? (fun l =>
          strStartsWith (pyStrip l) "# " && !(strStartsWith (pyStrip l) "## ")) with
      | some l => .ok (pyStrip (strDrop (pyStrip l) 2))
      | none => .error .noHeading := by
  induction ls with
  | nil => rfl
  | cons l ls ih =>
    by_cases hl : (strStartsWith (pyStrip l) "# " &&
        !(strStartsWith (pyStrip l) "## ")) = true
    · have hfind : List.find? (fun l =>
          strStartsWith (pyStrip l) "# " && !(strStartsWith (pyStrip l) "## "))
          (l :: ls) = some l := List.find?_cons_of_pos ls hl
      rw [hfind]
      have hc : strStartsWith (pyStrip l) "# " = true ∧
          strStartsWith (pyStrip l) "## " = false := by
        simpa [Bool.and_eq_true, Bool.not_eq_true'] using hl
      simp [extractTitleLines, hc.1, hc.2]
    · have hfind : List.find? (fun l =>
          strStartsWith (pyStrip l) "# " && !(strStartsWith (pyStrip l) "## "))
          (l :: ls) = List.find? (fun l =>
          strStartsWith (pyStrip l) "# " && !(strStartsWith (pyStrip l) "## ")) ls :=
        List.find?_cons_of_neg ls (by simpa using hl)
      rw [hfind]
      have hc : ¬(strStartsWith (pyStrip l) "# " = true ∧
          strStartsWith (pyStrip l) "## " = false) := by
        simpa [Bool.and_eq_true, Bool.not_eq_true'] using hl
      simp only [extractTitleLines]
      rw [if_neg hc]
      exact ih

/-- Claim C1 (corrected), counterexample to the claim as stated: in the
input `"**a_b**"` the delimiter `"_"` occurs an odd number of times, yet
`text_to_textnodes` succeeds (the underscore is hidden inside the BOLD
fragment before the `"_"` pass runs); and in `"**a_**_"` every delimiter of
the set occurs an even number of times, yet `text_to_textnodes` fails on
the `"_"` pass. -/
theorem claim1_delimiter_balance_counterexample :
    countOcc "_" "**a_b**" % 2 = 1 ∧
    textToTextnodes "**a_b**" = .ok [{ text := "a_b", node_type := .bold }] ∧
    countOcc "**" "**a_**_" % 2 = 0 ∧ countOcc "*" "**a_**_" % 2 = 0 ∧
    countOcc "_" "**a_**_" % 2 = 0 ∧ countOcc "`" "**a_**_" % 2 = 0 ∧
    textToTextnodes "**a_**_" = .error (.malformedInline "_") :=
  ⟨by decide, by rfl, by decide, by decide, by decide, by decide, by rfl⟩

/-- Claim C1 (corrected, amended): the odd-count law holds per delimiter
pass over the PLAIN fragments that pass receives, not over the whole input
string — a delimiter pass fails with the MalformedInline error exactly when
its delimiter occurs an odd number of times (non-overlapping, greedy
left-to-right) in the text of some PLAIN fragment it processes; and for the
first pass, whose sole fragment is the whole input, an odd count of `"**"`
in the input makes `text_to_textnodes` fail. -/
theorem claim1_delimiter_balance_amended :
    (∀ (ns : List TextNode) (d : String) (t : TextType),
      (splitNodesDelimiter ns d t).isOk = false ↔
        ∃ n ∈ ns, n.node_type = .text ∧ countOcc d n.text % 2 = 1) ∧
    (∀ s : String, countOcc "**" s % 2 = 1 → (textToTextnodes s).isOk = false) := by
  refine ⟨fun ns d t => splitNodesDelimiter_fails_iff d t ns, fun s hodd => ?_⟩
  have h1 : (splitNodesDelimiter [{ text := s, node_type := .text }] "**"
      .bold).isOk = false :=
    (splitNodesDelimiter_fails_iff "**" .bold _).mpr
      ⟨{ text := s, node_type := .text }, List.mem_singleton_self _, rfl, hodd⟩
  rcases hr : splitNodesDelimiter [{ text := s, node_type := .text }] "**"
      TextType.bold with e | ns1
  · simp [textToTextnodes, hr, Except.isOk, Except.toBool]
  · rw [hr] at h1
    simp [Except.isOk, Except.toBool] at h1

/-- Claim C1, witness: `"**"` occurs once (odd) in the input `"**"`, and
`text_to_textnodes` fails there. -/
theorem claim1_delimiter_balance_witness :
    countOcc "**" "**" % 2 = 1 ∧ (textToTextnodes "**").isOk = false :=
  ⟨by decide, claim1_delimiter_balance_amended.2 "**" (by decide)⟩

/-- Claim C2 (corrected), counterexample to the claim as stated: the empty
document yields zero blocks, yet `markdown_to_html_node` does not fail — it
returns a `div` parent node with zero children. -/
theorem claim2_empty_document_counterexample :
    markdownToBlocks "" = [] ∧
    markdownToHtmlNode "" = .ok (.parent (some "div") [] []) :=
  ⟨rfl, rfl⟩

/-- Claim C2 (corrected, amended): on any document whose splitting and
trimming yields zero non-empty blocks, `markdown_to_html_node` returns a
`div` parent with an empty children list; the empty-document failure
surfaces only when that node is serialized, `to_html` raising the
empty-children error. -/
theorem claim2_empty_document_amended :
    ∀ md : String, markdownToBlocks md = [] →
      markdownToHtmlNode md = .ok (.parent (some "div") [] []) ∧
      toHtml (.parent (some "div") [] []) = .error .parentNoChildren := by
  intro md h
  refine ⟨?_, rfl⟩
  simp [markdownToHtmlNode, h, blocksToChildren]

/-- Claim C2, witness: a whitespace-only document. -/
theorem claim2_empty_document_witness :
    markdownToHtmlNode "   " = .ok (.parent (some "div") [] []) ∧
    toHtml (.parent (some "div") [] []) = .error .parentNoChildren :=
  claim2_empty_document_amended "   " (by rfl)

/-- Claim C3 (confirmed): `text_to_textnodes` on `"![a](u1)[b](u2)"`
returns exactly an IMAGE fragment `("a", "u1")` followed by a LINK fragment
`("b", "u2")`; the image is not reinterpreted as a link despite the leading
exclamation mark. -/
theorem claim3_image_link_precedence :
    textToTextnodes "![a](u1)[b](u2)" =
      .ok [{ text := "a", node_type := .image, URL := some "u1" },
           { text := "b", node_type := .link, URL := some "u2" }] := rfl

/-- Claim C6 (confirmed): converting the CODE block
`"```\n_raw_\n**also raw**\n```"` yields a `pre` parent with exactly one
child, a `code` leaf whose text is exactly `"_raw_\n**also raw**\n"` — the
interior never reaches the inline tokenizer, so the `_` and `**` markers
survive literally. -/
theorem claim6_code_block_raw :
    codeToHtmlNode "```\n_raw_\n**also raw**\n```" =
      .ok (.parent (some "pre")
        [.leaf (some "code") (some "_raw_\n**also raw**\n") []] []) := rfl

/-- Claim C7 (confirmed): `extract_title` agrees everywhere with the
specification: return the trimmed remainder after `"# "` of the first line
whose trimmed form starts with `"# "` and not `"## "`, and fail with the
NoHeading error exactly when no such line exists. -/
theorem claim7_extract_title_spec :
    ∀ md : String, extractTitle md = specExtractTitle md := by
  intro md
  simp only [extractTitle, specExtractTitle]
  exact extractTitleLines_eq (pySplit md "\n")

/-- Claim C9 (confirmed): block classification is total — every string is
mapped to one of the six block types — and deterministic, depending only on
the block string itself. -/
theorem claim9_classification_total :
    (∀ b : String,
      blockToBlockType b = .paragraph ∨ blockToBlockType b = .heading ∨
      blockToBlockType b = .code ∨ blockToBlockType b = .quote ∨
      blockToBlockType b = .unordered_list ∨
      blockToBlockType b = .ordered_list) ∧
    (∀ b₁ b₂ : String, b₁ = b₂ → blockToBlockType b₁ = blockToBlockType b₂) := by
  refine ⟨fun b => ?_, fun b₁ b₂ h => by rw [h]⟩
  cases h : blockToBlockType b <;> simp

/-- Claim C9, witness. -/
theorem claim9_classification_total_witness :
    blockToBlockType "> q" = blockToBlockType "> q" :=
  claim9_classification_total.2 "> q" "> q" rfl

/-- Claim C10 (confirmed): the fence-only blocks `"```"` and `"``````"` are
classified CODE, yet `code_to_html_node` fails on them with the error of
`block.index("\n")` (no newline in the block), and `markdown_to_html_node`
propagates that failure for the corresponding one-block documents. -/
theorem claim10_fence_without_newline :
    blockToBlockType "```" = .code ∧
    codeToHtmlNode "```" = .error .substringNotFound ∧
    markdownToHtmlNode "```" = .error .substringNotFound ∧
    blockToBlockType "``````" = .code ∧
    codeToHtmlNode "``````" = .error .substringNotFound ∧
    markdownToHtmlNode "``````" = .error .substringNotFound :=
  ⟨rfl, rfl, rfl, rfl, rfl, rfl⟩

/-- Claim C5 (confirmed): `block_to_block_type` returns HEADING exactly for
blocks starting with 1 to 6 `#` characters immediately followed by a space
character; in particular 7 hashes give PARAGRAPH, 6 hashes give HEADING,
and a hash with no following space gives PARAGRAPH. -/
theorem claim5_heading_boundary :
    (∀ b : String, blockToBlockType b = .heading ↔ specHeading b) ∧
    blockToBlockType "####### x" = .paragraph ∧
    blockToBlockType "###### x" = .heading ∧
    blockToBlockType "#x" = .paragraph := by
  refine ⟨fun b => ?_, rfl, rfl, rfl⟩
  simp only [blockToBlockType]
  split_ifs with h1 h2 h3 h4 h5
  · exact iff_of_true rfl ((headingCond_iff b).mp h1)
  all_goals
    exact iff_of_false (by simp) fun hs => h1 ((headingCond_iff b).mpr hs)

/-- Claim C4 (confirmed): `block_to_block_type` returns ORDERED_LIST
exactly when every line `i` (0-indexed) starts with the literal
`"{i+1}. "` — numbering from 1 in steps of exactly 1 — and no
higher-precedence rule (heading, code, quote, unordered list) matches; the
gapped block classifies PARAGRAPH and the properly numbered one
ORDERED_LIST. -/
theorem claim4_ordered_list_strictness :
    (∀ b : String, blockToBlockType b = .ordered_list ↔
      (specOrdered b ∧ ¬specHeading b ∧ ¬specCode b ∧ ¬specQuote b ∧
        ¬specUnordered b)) ∧
    blockToBlockType "1. a\n2. b\n4. c" = .paragraph ∧
    blockToBlockType "1. a\n2. b\n3. c" = .ordered_list := by
  refine ⟨fun b => ?_, rfl, rfl⟩
  have hlines : 0 < (pySplit b "\n").length :=
    List.length_pos.mpr (pySplit_ne_nil b "\n")
  have hO : (orderedCheck 0 (pySplit b "\n") = true ∧
      0 < (pySplit b "\n").length) ↔ specOrdered b := by
    constructor
    · rintro ⟨ho, -⟩ i h
      have := (orderedCheck_iff (pySplit b "\n") 0).mp ho i h
      simpa [Nat.zero_add] using this
    · intro hs
      refine ⟨(orderedCheck_iff (pySplit b "\n") 0).mpr fun i h => ?_, hlines⟩
      simpa [Nat.zero_add] using hs i h
  have hQ : ((pySplit b "\n").all (fun l => strStartsWith l ">") = true) ↔
      specQuote b := List.all_eq_true
  have hU : ((pySplit b "\n").all (fun l => strStartsWith l "- ") = true) ↔
      specUnordered b := List.all_eq_true
  simp only [blockToBlockType]
  split_ifs with h1 h2 h3 h4 h5
  · exact iff_of_false (by simp)
      fun h => h.2.1 ((headingCond_iff b).mp h1)
  · exact iff_of_false (by simp) fun h => h.2.2.1 h2
  · exact iff_of_false (by simp) fun h => h.2.2.2.1 (hQ.mp h3)
  · exact iff_of_false (by simp) fun h => h.2.2.2.2 (hU.mp h4)
  · exact iff_of_true (by simp)
      ⟨hO.mp h5, fun hs => h1 ((headingCond_iff b).mpr hs), h2,
        fun hs => h3 (hQ.mpr hs), fun hs => h4 (hU.mpr hs)⟩
  · exact iff_of_false (by simp) fun h => h5 (hO.mpr h.1)

/-- Claim C8 (corrected), counterexample to the claim as stated: the empty
string contains no markdown special characters, yet `text_to_textnodes`
returns an empty fragment list, not a single PLAIN fragment (empty parts
are dropped by the delimiter passes). -/
theorem claim8_roundtrip_counterexample :
    noMarkdownSpecials "" ∧ textToTextnodes "" = .ok [] :=
  ⟨by unfold noMarkdownSpecials; decide, rfl⟩

/-- Claim C8 (corrected, amended): for every NON-EMPTY string with no
markdown special characters (no `*`, `_`, backtick, `!`, `[`, `]`, `(`,
`)`), `text_to_textnodes` yields exactly one PLAIN fragment whose content
is the string itself, and serializing the leaf produced by
`text_node_to_html_node` on that fragment reproduces the string exactly. -/
theorem claim8_roundtrip_amended :
    ∀ s : String, s ≠ "" → noMarkdownSpecials s →
      textToTextnodes s = .ok [{ text := s, node_type := .text }] ∧
      toHtml (textNodeToHtmlNode { text := s, node_type := .text }) = .ok s := by
  intro s hne hspec
  have hstar : '*' ∉ s.data := fun hm => hspec _ hm (Or.inl rfl)
  have hund : '_' ∉ s.data := fun hm => hspec _ hm (Or.inr (Or.inl rfl))
  have htick : Char.ofNat 96 ∉ s.data := fun hm =>
    hspec _ hm (Or.inr (Or.inr (Or.inl rfl)))
  have hbang : '!' ∉ s.data := fun hm =>
    hspec _ hm (Or.inr (Or.inr (Or.inr (Or.inl rfl))))
  have hlb : '[' ∉ s.data := fun hm =>
    hspec _ hm (Or.inr (Or.inr (Or.inr (Or.inr (Or.inl rfl)))))
  have hsBB : pySplit s "**" = [s] := pySplit_single s "**" '*' ['*'] rfl hstar
  have hsB : pySplit s "*" = [s] := pySplit_single s "*" '*' [] rfl hstar
  have hsU : pySplit s "_" = [s] := pySplit_single s "_" '_' [] rfl hund
  have hsT : pySplit s "`" = [s] :=
    pySplit_single s "`" (Char.ofNat 96) [] (by decide) htick
  have hpass : ∀ (d : String) (t : TextType), pySplit s d = [s] →
      splitNodesDelimiter [{ text := s, node_type := .text }] d t =
        .ok [{ text := s, node_type := .text }] := by
    intro d t hd
    simp [splitNodesDelimiter, hd, partsToNodes, hne]
  have himg : splitImageNode { text := s, node_type := .text } =
      [{ text := s, node_type := .text }] := by
    simp [splitImageNode, extractMarkdownImages,
      extractImagesF_nil s.length s.data hbang]
  have hlink : splitLinkNode { text := s, node_type := .text } =
      [{ text := s, node_type := .text }] := by
    simp [splitLinkNode, extractMarkdownLinks,
      extractLinksF_nil s.length none s.data hlb]
  refine ⟨?_, rfl⟩
  simp only [textToTextnodes, hpass "**" .bold hsBB, hpass "*" .italic hsB,
    hpass "_" .italic hsU, hpass "`" .code hsT]
  simp [splitNodesImage, splitNodesLink, himg, hlink]

/-- Claim C8, witness at a concrete special-character-free string. -/
theorem claim8_roundtrip_witness :
    textToTextnodes "hello world" =
      .ok [{ text := "hello world", node_type := .text }] ∧
    toHtml (textNodeToHtmlNode { text := "hello world", node_type := .text }) =
      .ok "hello world" :=
  claim8_roundtrip_amended "hello world" (by decide)
    (by unfold noMarkdownSpecials; decide)
